import Mathlib

set_option autoImplicit false

/-!
Verification of the asset-resolution and output-layout engine of
`mkslides-reveal` (file `markupgenerator.py`) against its specification.

Paths are modelled as lists of name segments below the filesystem root.
All paths handed to `relative_to` in the source are resolved absolute
paths, so they share one anchor and a path is fully described by its
segment list.  File names are Lean `String`s; the character-level
operations of `pathlib` (`suffix`, `stem`, `with_suffix`) are embedded on
`String.data`.
-/

/-- The length of the longest common prefix of two segment lists. -/
def commonPrefixLen : List String → List String → Nat
  | [], _ => 0
  | _ :: _, [] => 0
  | a :: as, b :: bs => if a = b then commonPrefixLen as bs + 1 else 0

/-- Python `PurePath.relative_to(other, walk_up=True)` on two resolved
absolute paths with the same anchor: walk up from `base` until a common
prefix of `target` is reached (one `".."` per step), then append the rest
of `target`.  This is the operation used at `markupgenerator.py` lines
94-96 and 191-193. -/
def relativeToWalkUp (target base : List String) : List String :=
  List.replicate (base.length - commonPrefixLen target base) ".."
    ++ target.drop (commonPrefixLen target base)

/-- One step of POSIX path resolution against a directory: `".."` pops the
last segment (the root is its own parent), `"."` is a no-op, any other
segment descends. -/
def resolveSeg (dir : List String) (seg : String) : List String :=
  if seg = ".." then dir.dropLast
  else if seg = "." then dir
  else dir ++ [seg]

/-- Resolve a relative path against a directory, segment by segment. -/
def resolvePath (dir rel : List String) : List String :=
  rel.foldl resolveSeg dir

/-! ## File names: pathlib `suffix`, `stem`, `with_suffix` -/

/-- Python pathlib name of a path: its last segment (`""` for the root). -/
def pathName (p : List String) : String := p.getLastD ""

/-- The index of the last `'.'` in a list of characters, if any
(Python `str.rfind('.')` restricted to a found result). -/
def lastDotIdx : List Char → Option Nat
  | [] => none
  | c :: cs =>
    match lastDotIdx cs with
    | some i => some (i + 1)
    | none => if c = '.' then some 0 else none

/-- Python pathlib `PurePath.suffix` of a file name: the part from the last
dot on, provided that dot is neither the first nor the last character;
otherwise the empty string. -/
def nameSuffix (s : String) : String :=
  match lastDotIdx s.data with
  | some i => if 0 < i ∧ i < s.data.length - 1 then String.mk (s.data.drop i) else ""
  | none => ""

/-- Python pathlib `PurePath.stem`: the name with its suffix removed
(`name[:-len(suffix)]` when the suffix is nonempty, else the name). -/
def nameStem (s : String) : String :=
  if nameSuffix s = "" then s
  else String.mk (s.data.take (s.data.length - (nameSuffix s).data.length))

/-- Python pathlib `PurePath.with_suffix` at the name level: drop the old
suffix (if any) and append the new one.  In pathlib this is
`name + suffix` when the old suffix is empty and
`name[:-len(old_suffix)] + suffix` otherwise; both equal `stem + suffix`. -/
def withSuffix (s suf : String) : String := nameStem s ++ suf

/-- `with_suffix` applied to a whole path: replace the last segment. -/
def withSuffixPath (p : List String) (suf : String) : List String :=
  p.dropLast ++ [withSuffix (pathName p) suf]

/-! ## Output tree layout (fields of `MarkupGenerator.__init__`) -/

/-- `self.output_assets_path = self.output_directory_path / "assets"`. -/
def outputAssetsPath (outputDirectoryPath : List String) : List String :=
  outputDirectoryPath ++ ["assets"]

/-- `self.output_revealjs_path = self.output_assets_path / "reveal-js"`. -/
def outputRevealjsPath (outputDirectoryPath : List String) : List String :=
  outputAssetsPath outputDirectoryPath ++ ["reveal-js"]

/-- Output markup path of one markdown file
(`markupgenerator.py` lines 90-93): the output directory joined with
`md_file.relative_to(md_root)` (argument `mdRel`), suffix `".html"`. -/
def outputMarkupPath (outputDirectoryPath mdRel : List String) : List String :=
  withSuffixPath (outputDirectoryPath ++ mdRel) ".html"

/-- `relative_revealjs_path` (lines 94-96): reveal.js directory relative to
the output file's directory, via `relative_to(..., walk_up=True)`. -/
def relativeRevealjsPath (outputDirectoryPath mdRel : List String) : List String :=
  relativeToWalkUp (outputRevealjsPath outputDirectoryPath)
    ((outputMarkupPath outputDirectoryPath mdRel).dropLast)

/-- `theme_output_path = self.output_assets_path / theme_path.name`
(line 188). -/
def themeOutputPath (outputDirectoryPath themePath : List String) : List String :=
  outputAssetsPath outputDirectoryPath ++ [pathName themePath]

/-- `relative_theme_path` (lines 191-193): the copied theme relative to the
directory of the file using it, via `relative_to(..., walk_up=True)`. -/
def relativeThemePath (fileUsingThemePath themeOutPath : List String) : List String :=
  relativeToWalkUp themeOutPath fileUsingThemePath.dropLast

/-! ## C3: the source-to-output path mapping -/

/-- The fnmatch pattern `*.md` used by the recursive glob `**/*.md` in
`__process_markdown_directory` (line 141): a file name matches iff it ends
in `".md"` (fnmatch translates `*.md` to the regex `.*\.md`, and `pathlib`
globbing does not exclude names starting with a dot). -/
def mdGlobMatch (s : String) : Bool :=
  decide (3 ≤ s.data.length ∧ s.data.drop (s.data.length - 3) = ['.', 'm', 'd'])

/-! ## Effects, URL detection, themes, options, index titles -/

/-- Observable filesystem effects of the generator, in program order. -/
inductive Effect where
  | created (p : List String)
  | copied (src dst : List String)
  | warned (p : List String)
deriving DecidableEq

/-- The characters allowed in a URL scheme after its first character
(`urllib.parse.scheme_chars`). -/
def schemeChars : List Char :=
  "abcdefghijklmnopqrstuvwxyzABCDEFGHIJKLMNOPQRSTUVWXYZ0123456789+-.".data

/-- `__is_absolute_url` (line 254-255): `bool(urlparse(url).scheme)`.
`urlsplit` extracts a nonempty scheme exactly when the string has a colon
at some positive index, its first character is an ASCII letter, and every
character before the colon after the first is in `scheme_chars`. -/
def isAbsoluteUrl (url : String) : Bool :=
  match url.data.findIdx? (fun c => c == ':') with
  | none => false
  | some i =>
    match url.data with
    | [] => false
    | c :: _ =>
      decide (0 < i) && c.isAlpha && ((url.data.take i).drop 1).all schemeChars.contains

/-- `__copy_theme` (lines 180-195): an absolute URL is returned untouched
with no effect; a local theme (already resolved to `themeResolved`) is
copied to `output_assets_path / theme_path.name` and the result is that
location relative to the directory of the file using the theme. -/
def copyTheme (outputDirectoryPath fileUsingThemePath : List String)
    (theme : String) (themeResolved : List String) :
    List Effect × (String ⊕ List String) :=
  if isAbsoluteUrl theme then ([], Sum.inl theme)
  else
    ([Effect.copied themeResolved (themeOutputPath outputDirectoryPath themeResolved)],
      Sum.inr (relativeThemePath fileUsingThemePath
        (themeOutputPath outputDirectoryPath themeResolved)))

/-- The guarded theme resolution shared by `__process_markdown_file`
(lines 102-104, key `slides.theme`) and `__process_markdown_directory`
(lines 157-159, key `index.theme`): `relative_theme_path` stays `None`
unless the configured value is truthy (present and not the empty
string). -/
def themeStep (outputDirectoryPath fileUsingThemePath : List String)
    (cfgTheme : Option String) (themeResolved : List String) :
    List Effect × Option (String ⊕ List String) :=
  match cfgTheme with
  | some t =>
    if t = "" then ([], none)
    else
      let r := copyTheme outputDirectoryPath fileUsingThemePath t themeResolved
      (r.1, some r.2)
  | none => ([], none)

/-- The fixed enumerated set of markdown data options (lines 115-120). -/
def markdownOptionKeys : List String :=
  ["separator", "separator-vertical", "separator-notes", "charset"]

/-- `markdown_data_options` (lines 114-122): every option of the fixed set
whose configured value is truthy is forwarded, in order; `get` is
`self.config.get("slides", ·)`, returning `none` for an unset key. -/
def markdownDataOptions (get : String → Option String) : List (String × String) :=
  markdownOptionKeys.filterMap fun o =>
    (get o).bind fun v => if v = "" then none else some (o, v)

/-- Python `dict.get(key, default)` on the front-matter metadata. -/
def metadataGet (metadata : List (String × String)) (key dflt : String) : String :=
  match metadata.find? (fun p => p.1 == key) with
  | some p => p.2
  | none => dflt

/-- The index entry title (line 146):
`metadata.get("title", md_file.stem)`. -/
def slideshowTitle (metadata : List (String × String)) (mdFile : List String) : String :=
  metadataGet metadata "title" (nameStem (pathName mdFile))

/-! ## A small filesystem model for the Asset Copier -/

/-- A filesystem: an association list of file contents keyed by path (the
most recent write is first, so a lookup takes the first hit), and the list
of existing directories. -/
structure FS where
  files : List (List String × String)
  dirs : List (List String)
deriving DecidableEq

/-- The content of the file at `p`, if any. -/
def lookupFile (fs : FS) (p : List String) : Option String :=
  (fs.files.find? (fun e => e.1 == p)).map (fun e => e.2)

/-- Python `Path.exists()`: `p` is an existing file or directory. -/
def pathExists (fs : FS) (p : List String) : Bool :=
  (lookupFile fs p).isSome || fs.dirs.contains p

/-- All prefixes of a path, the path itself included: the directories that
`mkdir(parents=True, exist_ok=True)` guarantees to exist afterwards. -/
def prefixesOf : List String → List (List String)
  | [] => [[]]
  | x :: xs => [] :: (prefixesOf xs).map (x :: ·)

/-- `destination_path.parent.mkdir(parents=True, exist_ok=True)`. -/
def mkdirParents (fs : FS) (d : List String) : FS :=
  { fs with dirs := prefixesOf d ++ fs.dirs }

/-- Write (or fully replace) the file at `p`. -/
def writeFile (fs : FS) (p : List String) (content : String) : FS :=
  { fs with files := (p, content) :: fs.files }

/-- `__create_file` (lines 199-206): overwrite in place when the
destination exists, else create the parent directories and the file; the
returned string is the logged action. -/
def createFile (fs : FS) (destinationPath : List String) (content : String) :
    FS × String :=
  if pathExists fs destinationPath then
    (writeFile fs destinationPath content, "Overwritten")
  else
    (writeFile (mkdirParents fs destinationPath.dropLast) destinationPath content,
      "Created")

/-- `__copy_file` (lines 244-252): record the destination's pre-existence,
create the parent directories, copy the source's content over whatever is
at the destination.  `shutil.copy` raises when the source is not an
existing file, hence the `Option`. -/
def copyFile (fs : FS) (sourcePath destinationPath : List String) :
    Option (FS × String) :=
  (lookupFile fs sourcePath).map fun c =>
    (writeFile (mkdirParents fs destinationPath.dropLast) destinationPath c,
      if pathExists fs destinationPath then "Overwritten" else "Copied")

/-! ## The document pipeline: image copying and the root-escape policy -/

/-- A path reference as written inside markdown.  Python's
`Path(parent, location)` keeps `location` alone when it is absolute and
joins it onto `parent` otherwise. -/
structure PyRef where
  absolute : Bool
  segs : List String
deriving DecidableEq

/-- `Path(md_file.parent, location)` (line 177). -/
def joinPy (parent : List String) (r : PyRef) : List String :=
  if r.absolute then r.segs else parent ++ r.segs

/-- `Path.is_relative_to` on two resolved absolute paths: prefix test. -/
def isRelativeTo (p root : List String) : Bool := root.isPrefixOf p

/-- `__copy_to_output_relative_to_md_root` (lines 213-226) on an already
resolved, existing source path: a source outside the markdown root is a
logged warning and no copy (the function returns `None`); otherwise the
file is copied to the same relative position under the output directory
and that relative path is returned. -/
def copyToOutputRelativeToMdRoot
    (mdRootPath outputDirectoryPath sourcePath : List String) :
    List Effect × Option (List String) :=
  if isRelativeTo sourcePath mdRootPath then
    ([Effect.copied sourcePath
        (outputDirectoryPath ++ sourcePath.drop mdRootPath.length)],
      some (sourcePath.drop mdRootPath.length))
  else
    ([Effect.warned sourcePath], none)

/-- `__copy_images` (lines 174-178): for each scanned reference in order,
`Path(md_file.parent, location).resolve(strict=True)` — which raises when
the resolved path does not exist, aborting with no further effects (the
`Bool` component becomes `false`) — then copy relative to the markdown
root.  `fsExists` is the filesystem existence oracle. -/
def copyImages (fsExists : List String → Bool)
    (mdRootPath outputDirectoryPath mdParent : List String) :
    List PyRef → List Effect × Bool
  | [] => ([], true)
  | r :: rest =>
    if fsExists (resolvePath [] (joinPy mdParent r)) then
      ((copyToOutputRelativeToMdRoot mdRootPath outputDirectoryPath
          (resolvePath [] (joinPy mdParent r))).1
        ++ (copyImages fsExists mdRootPath outputDirectoryPath mdParent rest).1,
        (copyImages fsExists mdRootPath outputDirectoryPath mdParent rest).2)
    else ([], false)

/-- `__process_markdown_file` (lines 77-137) as its effect trace: the
theme copy (lines 102-104), then the creation of the output markup file
(line 131), then the image copies (line 135).  The `Bool` is `true` when
no step raised; a strict image resolution failure aborts right there, so
the trace holds exactly the effects performed before the failure.
`cfgTheme` is `config.get("slides", "theme")` and `themeResolved` the
resolution of that local path; `refs` are the image references scanned
from the body, in regex order. -/
def processMarkdownFile (fsExists : List String → Bool)
    (mdRootPath outputDirectoryPath mdFile : List String)
    (cfgTheme : Option String) (themeResolved : List String)
    (refs : List PyRef) : List Effect × Bool :=
  let outPath := outputMarkupPath outputDirectoryPath (mdFile.drop mdRootPath.length)
  let theme := themeStep outputDirectoryPath outPath cfgTheme themeResolved
  let imgs := copyImages fsExists mdRootPath outputDirectoryPath mdFile.dropLast refs
  (theme.1 ++ Effect.created outPath :: imgs.1, imgs.2)

/-! ## Theorems -/

theorem commonPrefixLen_le_left (a b : List String) :
    commonPrefixLen a b ≤ a.length := by
  induction a generalizing b with
  | nil => simp [commonPrefixLen]
  | cons x as ih =>
    cases b with
    | nil => simp [commonPrefixLen]
    | cons y bs =>
      simp only [commonPrefixLen, List.length_cons]
      split
      · exact Nat.succ_le_succ (ih bs)
      · exact Nat.zero_le _

theorem commonPrefixLen_le_right (a b : List String) :
    commonPrefixLen a b ≤ b.length := by
  induction a generalizing b with
  | nil => simp [commonPrefixLen]
  | cons x as ih =>
    cases b with
    | nil => simp [commonPrefixLen]
    | cons y bs =>
      simp only [commonPrefixLen, List.length_cons]
      split
      · exact Nat.succ_le_succ (ih bs)
      · exact Nat.zero_le _

theorem take_commonPrefixLen_eq (a b : List String) :
    a.take (commonPrefixLen a b) = b.take (commonPrefixLen a b) := by
  induction a generalizing b with
  | nil => simp [commonPrefixLen]
  | cons x as ih =>
    cases b with
    | nil => simp [commonPrefixLen]
    | cons y bs =>
      by_cases hxy : x = y
      · simp [commonPrefixLen, hxy, ih bs]
      · simp [commonPrefixLen, hxy]

theorem resolvePath_append (d r1 r2 : List String) :
    resolvePath d (r1 ++ r2) = resolvePath (resolvePath d r1) r2 := by
  simp [resolvePath, List.foldl_append]

theorem resolvePath_replicate_up (d : List String) (m : Nat) :
    resolvePath d (List.replicate m "..") = d.take (d.length - m) := by
  induction m generalizing d with
  | zero => simp [resolvePath]
  | succ m ih =>
    rw [List.replicate_succ]
    simp only [resolvePath, List.foldl_cons]
    have h1 : resolveSeg d ".." = d.dropLast := by simp [resolveSeg]
    rw [h1]
    have h2 := ih d.dropLast
    simp only [resolvePath] at h2
    rw [h2, List.length_dropLast, List.dropLast_eq_take, List.take_take]
    congr 1
    omega

theorem resolvePath_no_dots (d : List String) (r : List String)
    (h : ∀ s ∈ r, s ≠ ".." ∧ s ≠ ".") : resolvePath d r = d ++ r := by
  induction r generalizing d with
  | nil => simp [resolvePath]
  | cons s rest ih =>
    obtain ⟨h1, h2⟩ := h s (by simp)
    simp only [resolvePath, List.foldl_cons]
    have hs : resolveSeg d s = d ++ [s] := by
      unfold resolveSeg
      rw [if_neg h1, if_neg h2]
    rw [hs]
    have := ih (d ++ [s]) (fun x hx => h x (by simp [hx]))
    simp only [resolvePath] at this
    rw [this, List.append_assoc]
    simp

/-- Round trip of `relative_to(..., walk_up=True)`: resolving the computed
relative path against the base directory lands exactly on the target, as
long as the target is a resolved path (no `"."` or `".."` segments). -/
theorem resolvePath_relativeToWalkUp (target base : List String)
    (ht : ∀ s ∈ target, s ≠ ".." ∧ s ≠ ".") :
    resolvePath base (relativeToWalkUp target base) = target := by
  unfold relativeToWalkUp
  rw [resolvePath_append, resolvePath_replicate_up,
    Nat.sub_sub_self (commonPrefixLen_le_right target base)]
  rw [resolvePath_no_dots _ _ (fun s hs => ht s (List.drop_subset _ _ hs))]
  rw [← take_commonPrefixLen_eq]
  exact List.take_append_drop _ target

/-- C1: for every output markup file and every target asset location in the
output tree, the relative path computed via `relative_to` with `walk_up`
(the reveal.js directory in `__process_markdown_file`, the copied theme in
`__copy_theme`), resolved against the output file's containing directory,
points exactly at the target location.  The hypotheses say the output
directory's segments and the theme file name are resolved names (no `"."`
or `".."`), which holds because the source resolves these paths. -/
theorem revealjs_and_theme_relative_paths_roundtrip
    (outputDirectoryPath mdRel themePath fileUsingThemePath : List String)
    (hout : ∀ s ∈ outputDirectoryPath, s ≠ ".." ∧ s ≠ ".")
    (hname : pathName themePath ≠ ".." ∧ pathName themePath ≠ ".") :
    resolvePath ((outputMarkupPath outputDirectoryPath mdRel).dropLast)
        (relativeRevealjsPath outputDirectoryPath mdRel)
      = outputRevealjsPath outputDirectoryPath
    ∧ resolvePath fileUsingThemePath.dropLast
        (relativeThemePath fileUsingThemePath
          (themeOutputPath outputDirectoryPath themePath))
      = themeOutputPath outputDirectoryPath themePath := by
  constructor
  · refine resolvePath_relativeToWalkUp _ _ ?_
    intro s hs
    have hs' : s ∈ outputDirectoryPath ∨ s = "assets" ∨ s = "reveal-js" := by
      simpa [outputRevealjsPath, outputAssetsPath, or_assoc] using hs
    rcases hs' with h | rfl | rfl
    · exact hout s h
    · exact ⟨by decide, by decide⟩
    · exact ⟨by decide, by decide⟩
  · refine resolvePath_relativeToWalkUp _ _ ?_
    intro s hs
    have hs' : s ∈ outputDirectoryPath ∨ s = "assets" ∨ s = pathName themePath := by
      simpa [themeOutputPath, outputAssetsPath, or_assoc] using hs
    rcases hs' with h | rfl | rfl
    · exact hout s h
    · exact ⟨by decide, by decide⟩
    · exact hname

/-- Witness for C1 at a concrete nesting: output file two levels deep,
theme used by a sibling file. -/
theorem revealjs_and_theme_relative_paths_roundtrip_witness :
    ((∀ s ∈ ["out"], s ≠ ".." ∧ s ≠ ".")
      ∧ (pathName ["lib", "theme.css"] ≠ ".."
          ∧ pathName ["lib", "theme.css"] ≠ "."))
    ∧ (resolvePath ((outputMarkupPath ["out"] ["slides", "sub", "b.md"]).dropLast)
          (relativeRevealjsPath ["out"] ["slides", "sub", "b.md"])
        = outputRevealjsPath ["out"]
      ∧ resolvePath (["out", "slides", "a.html"].dropLast)
          (relativeThemePath ["out", "slides", "a.html"]
            (themeOutputPath ["out"] ["lib", "theme.css"]))
        = themeOutputPath ["out"] ["lib", "theme.css"]) :=
  ⟨⟨by decide, by decide⟩,
    revealjs_and_theme_relative_paths_roundtrip ["out"] ["slides", "sub", "b.md"]
      ["lib", "theme.css"] ["out", "slides", "a.html"] (by decide) (by decide)⟩

theorem string_data_inj (s t : String) (h : s.data = t.data) : s = t := by
  cases s
  cases t
  exact congrArg String.mk (by simpa using h)

theorem mdGlobMatch_concat (s : String) (h : mdGlobMatch s = true) :
    s.data = s.data.take (s.data.length - 3) ++ ['.', 'm', 'd'] := by
  obtain ⟨h1, h2⟩ := of_decide_eq_true h
  conv_lhs => rw [← List.take_append_drop (s.data.length - 3) s.data]
  rw [h2]

theorem lastDotIdx_concat_md (xs : List Char) :
    lastDotIdx (xs ++ ['.', 'm', 'd']) = some xs.length := by
  induction xs with
  | nil => rfl
  | cons c cs ih => simp [lastDotIdx, ih]

theorem nameSuffix_of_md (s : String) (xs : List Char) (hx : xs ≠ [])
    (hs : s.data = xs ++ ['.', 'm', 'd']) : nameSuffix s = ".md" := by
  unfold nameSuffix
  rw [hs, lastDotIdx_concat_md]
  show (if 0 < xs.length ∧ xs.length < (xs ++ ['.', 'm', 'd']).length - 1 then
      String.mk ((xs ++ ['.', 'm', 'd']).drop xs.length) else "") = ".md"
  rw [if_pos]
  · congr 1
    simp
  · refine ⟨List.length_pos.mpr hx, ?_⟩
    simp

theorem nameStem_of_md (s : String) (xs : List Char) (hx : xs ≠ [])
    (hs : s.data = xs ++ ['.', 'm', 'd']) : nameStem s = String.mk xs := by
  unfold nameStem
  rw [nameSuffix_of_md s xs hx hs, if_neg (by decide : ¬(".md" : String) = "")]
  rw [hs, show (".md" : String).data.length = 3 from by decide]
  congr 1
  simp

theorem withSuffix_html_of_md (s : String) (xs : List Char) (hx : xs ≠ [])
    (hs : s.data = xs ++ ['.', 'm', 'd']) :
    withSuffix s ".html" = String.mk xs ++ ".html" := by
  unfold withSuffix
  rw [nameStem_of_md s xs hx hs]

/-- C3 counterexample: the mapping is not injective as claimed.  A source
file named `.md` (hidden file: pathlib gives it an empty suffix, so
`with_suffix` appends) and a source file named `.md.md` (suffix `.md`,
which `with_suffix` replaces) are distinct markdown paths under the root
yet both map to the output name `.md.html`.  Both names match the glob
`**/*.md` that enumerates markdown files. -/
theorem output_paths_collision_counterexample :
    outputMarkupPath ["out"] [".md"] = outputMarkupPath ["out"] [".md.md"]
    ∧ ([".md"] : List String) ≠ [".md.md"]
    ∧ mdGlobMatch ".md" = true ∧ mdGlobMatch ".md.md" = true := by decide

/-- C3 amended: the mapping (substitute the source root prefix with the
output root and the `.md` extension with `.html`) is injective for markdown
files whose name is not exactly `".md"`, i.e. whose name has a nonempty
stem before the `.md` extension.  `r1`, `r2` are the paths relative to the
source root (`md_file.relative_to(md_root)`). -/
theorem output_paths_injective_amended
    (outputDirectoryPath r1 r2 : List String)
    (hg1 : mdGlobMatch (pathName r1) = true)
    (hg2 : mdGlobMatch (pathName r2) = true)
    (hd1 : pathName r1 ≠ ".md") (hd2 : pathName r2 ≠ ".md")
    (h1 : r1 ≠ []) (h2 : r2 ≠ []) (hne : r1 ≠ r2) :
    outputMarkupPath outputDirectoryPath r1 ≠ outputMarkupPath outputDirectoryPath r2 := by
  rcases List.eq_nil_or_concat r1 with rfl | ⟨L1, a1, rfl⟩
  · exact absurd rfl h1
  rcases List.eq_nil_or_concat r2 with rfl | ⟨L2, a2, rfl⟩
  · exact absurd rfl h2
  rw [List.concat_eq_append] at hg1 hd1 hne ⊢
  rw [List.concat_eq_append] at hg2 hd2 hne ⊢
  have hn1 : pathName (L1 ++ [a1]) = a1 := by simp [pathName]
  have hn2 : pathName (L2 ++ [a2]) = a2 := by simp [pathName]
  rw [hn1] at hg1 hd1
  rw [hn2] at hg2 hd2
  set xs1 := a1.data.take (a1.data.length - 3) with hxs1
  set xs2 := a2.data.take (a2.data.length - 3) with hxs2
  have hc1 : a1.data = xs1 ++ ['.', 'm', 'd'] := mdGlobMatch_concat a1 hg1
  have hc2 : a2.data = xs2 ++ ['.', 'm', 'd'] := mdGlobMatch_concat a2 hg2
  have hx1 : xs1 ≠ [] := by
    intro hnil
    rw [hnil, List.nil_append] at hc1
    exact hd1 (string_data_inj a1 ".md" hc1)
  have hx2 : xs2 ≠ [] := by
    intro hnil
    rw [hnil, List.nil_append] at hc2
    exact hd2 (string_data_inj a2 ".md" hc2)
  intro heq
  unfold outputMarkupPath withSuffixPath at heq
  rw [show outputDirectoryPath ++ (L1 ++ [a1]) = (outputDirectoryPath ++ L1) ++ [a1] by
    simp [List.append_assoc]] at heq
  rw [show outputDirectoryPath ++ (L2 ++ [a2]) = (outputDirectoryPath ++ L2) ++ [a2] by
    simp [List.append_assoc]] at heq
  simp only [List.dropLast_concat, pathName, List.getLastD_concat] at heq
  obtain ⟨hpre, hlast⟩ := List.append_inj' heq (by simp)
  have hL : L1 = L2 := List.append_cancel_left hpre
  have hw : withSuffix a1 ".html" = withSuffix a2 ".html" := by
    simpa using hlast
  rw [withSuffix_html_of_md a1 xs1 hx1 hc1, withSuffix_html_of_md a2 xs2 hx2 hc2] at hw
  have hxeq : xs1 = xs2 := by
    have := congrArg String.data hw
    simp only [String.data_append] at this
    exact List.append_cancel_right this
  have ha : a1 = a2 := string_data_inj a1 a2 (by rw [hc1, hc2, hxeq])
  exact hne (by rw [hL, ha])

/-- Witness for the amended C3 at two ordinary markdown names. -/
theorem output_paths_injective_amended_witness :
    (mdGlobMatch (pathName ["sub", "a.md"]) = true
      ∧ mdGlobMatch (pathName ["b.md"]) = true
      ∧ pathName ["sub", "a.md"] ≠ ".md" ∧ pathName ["b.md"] ≠ ".md"
      ∧ (["sub", "a.md"] : List String) ≠ ["b.md"])
    ∧ outputMarkupPath ["out"] ["sub", "a.md"] ≠ outputMarkupPath ["out"] ["b.md"] :=
  ⟨⟨by decide, by decide, by decide, by decide, by decide⟩,
    output_paths_injective_amended ["out"] ["sub", "a.md"] ["b.md"]
      (by decide) (by decide) (by decide) (by decide)
      (by decide) (by decide) (by decide)⟩

theorem mem_markdownDataOptions (get : String → Option String) (k v : String) :
    (k, v) ∈ markdownDataOptions get
      ↔ k ∈ markdownOptionKeys ∧ get k = some v ∧ v ≠ "" := by
  unfold markdownDataOptions
  rw [List.mem_filterMap]
  constructor
  · rintro ⟨o, ho, hfo⟩
    cases hgo : get o with
    | none => rw [hgo] at hfo; simp at hfo
    | some w =>
      rw [hgo] at hfo
      simp only [Option.some_bind] at hfo
      by_cases hw : w = ""
      · rw [if_pos hw] at hfo
        simp at hfo
      · rw [if_neg hw] at hfo
        simp only [Option.some.injEq, Prod.mk.injEq] at hfo
        obtain ⟨rfl, rfl⟩ := hfo
        exact ⟨ho, hgo, hw⟩
  · rintro ⟨hk, hg, hv⟩
    refine ⟨k, hk, ?_⟩
    rw [hg]
    simp only [Option.some_bind]
    rw [if_neg hv]

/-- C4: for every configured theme string that is an absolute URL,
`__copy_theme` performs no copy (no effect at all, in particular nothing
is written under the output assets directory) and returns the URL string
itself unchanged. -/
theorem absolute_url_theme_not_copied
    (outputDirectoryPath fileUsingThemePath themeResolved : List String)
    (theme : String) (h : isAbsoluteUrl theme = true) :
    copyTheme outputDirectoryPath fileUsingThemePath theme themeResolved
      = ([], Sum.inl theme) := by
  unfold copyTheme
  rw [if_pos h]

/-- Witness for C4 at the spec's example URL. -/
theorem absolute_url_theme_not_copied_witness :
    isAbsoluteUrl "https://example.com/t.css" = true
    ∧ copyTheme ["out"] ["out", "a.html"] "https://example.com/t.css" ["lib", "t.css"]
        = ([], Sum.inl "https://example.com/t.css") :=
  ⟨by decide,
    absolute_url_theme_not_copied ["out"] ["out", "a.html"] ["lib", "t.css"]
      "https://example.com/t.css" (by decide)⟩

/-- C5: `markdown_data_options` contains exactly those keys of the fixed
set whose configured value is present (truthy), each mapped to its
configured value; options without a present value are entirely absent. -/
theorem markdown_data_options_exact (get : String → Option String) (k v : String) :
    (k, v) ∈ markdownDataOptions get
      ↔ k ∈ markdownOptionKeys ∧ get k = some v ∧ v ≠ "" :=
  mem_markdownDataOptions get k v

/-- C6: the index entry title of a processed markdown file is the
front-matter `title` when that field is present, and the file's stem (base
name, extension stripped) otherwise. -/
theorem index_title_fallback (metadata : List (String × String)) (mdFile : List String) :
    (metadata.find? (fun p => p.1 == "title") = none →
      slideshowTitle metadata mdFile = nameStem (pathName mdFile))
    ∧ ∀ p, metadata.find? (fun p => p.1 == "title") = some p →
        slideshowTitle metadata mdFile = p.2 := by
  constructor
  · intro h
    unfold slideshowTitle metadataGet
    rw [h]
  · intro p h
    unfold slideshowTitle metadataGet
    rw [h]

/-- Witness for C6: no front matter falls back to the stem `"b"`; a
`title: Intro` entry is used as is. -/
theorem index_title_fallback_witness :
    (([] : List (String × String)).find? (fun p => p.1 == "title") = none
      ∧ slideshowTitle [] ["root", "sub", "b.md"]
          = nameStem (pathName ["root", "sub", "b.md"])
      ∧ nameStem (pathName ["root", "sub", "b.md"]) = "b")
    ∧ ([("title", "Intro")].find? (fun p => p.1 == "title") = some ("title", "Intro")
      ∧ slideshowTitle [("title", "Intro")] ["root", "sub", "b.md"] = "Intro") :=
  ⟨⟨by decide, (index_title_fallback [] ["root", "sub", "b.md"]).1 (by decide), by decide⟩,
    ⟨by decide,
      (index_title_fallback [("title", "Intro")] ["root", "sub", "b.md"]).2
        ("title", "Intro") (by decide)⟩⟩

/-- C10: a configured value that is the empty string is treated exactly as
an absent value, because the source tests presence by truthiness: the
theme step (both `slides.theme` and `index.theme` go through it) resolves
and copies nothing and yields no theme, and an option set to `""` is
omitted from `markdown_data_options`. -/
theorem empty_string_config_treated_as_absent :
    (∀ outputDirectoryPath fileUsingThemePath themeResolved,
      themeStep outputDirectoryPath fileUsingThemePath (some "") themeResolved
        = ([], none))
    ∧ ∀ (get : String → Option String) (k v : String), get k = some "" →
        (k, v) ∉ markdownDataOptions get := by
  constructor
  · intro o f r
    rfl
  · intro get k v hk hmem
    obtain ⟨-, hg, hv⟩ := (mem_markdownDataOptions get k v).mp hmem
    rw [hk] at hg
    exact hv (Option.some.inj hg).symm

/-- Witness for C10 with `separator` configured to the empty string. -/
theorem empty_string_config_treated_as_absent_witness :
    themeStep ["out"] ["out", "a.html"] (some "") ["lib", "t.css"] = ([], none)
    ∧ ((fun k => if k = "separator" then some "" else none) "separator" = some ""
      ∧ ("separator", "x")
          ∉ markdownDataOptions (fun k => if k = "separator" then some "" else none)) :=
  ⟨empty_string_config_treated_as_absent.1 ["out"] ["out", "a.html"] ["lib", "t.css"],
    ⟨by decide,
      empty_string_config_treated_as_absent.2
        (fun k => if k = "separator" then some "" else none) "separator" "x" (by decide)⟩⟩

theorem lookupFile_writeFile_self (fs : FS) (p : List String) (c : String) :
    lookupFile (writeFile fs p c) p = some c := by
  unfold lookupFile writeFile
  rw [List.find?_cons_of_pos _ (by simp)]
  rfl

theorem lookupFile_writeFile_ne (fs : FS) (p q : List String) (c : String)
    (h : q ≠ p) : lookupFile (writeFile fs p c) q = lookupFile fs q := by
  unfold lookupFile writeFile
  rw [List.find?_cons_of_neg _ (by simp only [beq_iff_eq]; exact fun hh => h hh.symm)]

theorem lookupFile_mkdirParents (fs : FS) (d q : List String) :
    lookupFile (mkdirParents fs d) q = lookupFile fs q := rfl

/-- C7: `__create_file` and `__copy_file` fully replace existing content
at the destination, create the needed parent directories when the
destination does not exist (`__copy_file` even unconditionally), and
classify the action by the destination's pre-existence: `"Overwritten"`
when it existed, `"Created"` resp. `"Copied"` when it did not. -/
theorem create_and_copy_file_semantics (fs : FS) (dst : List String)
    (content : String) (src : List String) (c : String)
    (hsrc : lookupFile fs src = some c) :
    (lookupFile (createFile fs dst content).1 dst = some content
      ∧ (createFile fs dst content).2
          = (if pathExists fs dst then "Overwritten" else "Created")
      ∧ (pathExists fs dst = false →
          ∀ d ∈ prefixesOf dst.dropLast, d ∈ (createFile fs dst content).1.dirs))
    ∧ ∃ fs2 act, copyFile fs src dst = some (fs2, act)
        ∧ lookupFile fs2 dst = some c
        ∧ act = (if pathExists fs dst then "Overwritten" else "Copied")
        ∧ ∀ d ∈ prefixesOf dst.dropLast, d ∈ fs2.dirs := by
  constructor
  · refine ⟨?_, ?_, ?_⟩
    · unfold createFile
      split
      · exact lookupFile_writeFile_self fs dst content
      · exact lookupFile_writeFile_self _ dst content
    · unfold createFile
      split
      · rfl
      · rfl
    · intro hnex d hd
      unfold createFile
      rw [if_neg (by rw [hnex]; exact Bool.false_ne_true)]
      show d ∈ prefixesOf dst.dropLast ++ fs.dirs
      exact List.mem_append_left _ hd
  · refine ⟨writeFile (mkdirParents fs dst.dropLast) dst c,
      if pathExists fs dst then "Overwritten" else "Copied", ?_, ?_, rfl, ?_⟩
    · simp [copyFile, hsrc]
    · exact lookupFile_writeFile_self _ dst c
    · intro d hd
      show d ∈ prefixesOf dst.dropLast ++ fs.dirs
      exact List.mem_append_left _ hd

/-- Witness for C7: one-file filesystem, fresh destination. -/
theorem create_and_copy_file_semantics_witness :
    lookupFile ⟨[(["src", "t.css"], "body")], [["out"]]⟩ ["src", "t.css"] = some "body"
    ∧ (lookupFile (createFile ⟨[(["src", "t.css"], "body")], [["out"]]⟩
          ["out", "a.html"] "markup").1 ["out", "a.html"] = some "markup"
      ∧ (createFile ⟨[(["src", "t.css"], "body")], [["out"]]⟩
          ["out", "a.html"] "markup").2
          = (if pathExists ⟨[(["src", "t.css"], "body")], [["out"]]⟩ ["out", "a.html"]
              then "Overwritten" else "Created")
      ∧ (pathExists ⟨[(["src", "t.css"], "body")], [["out"]]⟩ ["out", "a.html"] = false →
          ∀ d ∈ prefixesOf (["out", "a.html"] : List String).dropLast,
            d ∈ (createFile ⟨[(["src", "t.css"], "body")], [["out"]]⟩
              ["out", "a.html"] "markup").1.dirs))
    ∧ ∃ fs2 act,
        copyFile ⟨[(["src", "t.css"], "body")], [["out"]]⟩ ["src", "t.css"]
            ["out", "a.html"] = some (fs2, act)
        ∧ lookupFile fs2 ["out", "a.html"] = some "body"
        ∧ act = (if pathExists ⟨[(["src", "t.css"], "body")], [["out"]]⟩ ["out", "a.html"]
            then "Overwritten" else "Copied")
        ∧ ∀ d ∈ prefixesOf (["out", "a.html"] : List String).dropLast, d ∈ fs2.dirs :=
  ⟨by decide,
    create_and_copy_file_semantics ⟨[(["src", "t.css"], "body")], [["out"]]⟩
      ["out", "a.html"] "markup" ["src", "t.css"] "body" (by decide)⟩

/-- C8: the copied theme's output location is the shared assets directory
joined with the theme's file name only, so it does not depend on the
theme's source directory; two local themes with the same file name map to
the same output path, and copying the second after the first leaves the
second one's content there. -/
theorem theme_flat_namespace_collision
    (outputDirectoryPath f1 f2 r1 r2 : List String) (t1 t2 : String)
    (fs : FS) (c1 c2 : String)
    (hu1 : isAbsoluteUrl t1 = false) (hu2 : isAbsoluteUrl t2 = false)
    (hn : pathName r1 = pathName r2)
    (hc1 : lookupFile fs r1 = some c1) (hc2 : lookupFile fs r2 = some c2)
    (hne : r2 ≠ themeOutputPath outputDirectoryPath r1) :
    themeOutputPath outputDirectoryPath r1 = themeOutputPath outputDirectoryPath r2
    ∧ (copyTheme outputDirectoryPath f1 t1 r1).1
        = [Effect.copied r1 (themeOutputPath outputDirectoryPath r1)]
    ∧ (copyTheme outputDirectoryPath f2 t2 r2).1
        = [Effect.copied r2 (themeOutputPath outputDirectoryPath r1)]
    ∧ ∃ fs1 a1 fs2 a2,
        copyFile fs r1 (themeOutputPath outputDirectoryPath r1) = some (fs1, a1)
        ∧ copyFile fs1 r2 (themeOutputPath outputDirectoryPath r1) = some (fs2, a2)
        ∧ lookupFile fs2 (themeOutputPath outputDirectoryPath r1) = some c2 := by
  have hpath : themeOutputPath outputDirectoryPath r1
      = themeOutputPath outputDirectoryPath r2 := by
    unfold themeOutputPath
    rw [hn]
  refine ⟨hpath, ?_, ?_, ?_⟩
  · simp [copyTheme, hu1]
  · rw [hpath]
    simp [copyTheme, hu2]
  · set p := themeOutputPath outputDirectoryPath r1 with hp
    set fs1 := writeFile (mkdirParents fs p.dropLast) p c1 with hfs1
    have hl2 : lookupFile fs1 r2 = some c2 := by
      rw [hfs1, lookupFile_writeFile_ne _ _ _ _ hne, lookupFile_mkdirParents]
      exact hc2
    refine ⟨fs1, if pathExists fs p then "Overwritten" else "Copied",
      writeFile (mkdirParents fs1 p.dropLast) p c2,
      if pathExists fs1 p then "Overwritten" else "Copied", ?_, ?_, ?_⟩
    · simp [copyFile, hc1, hfs1]
    · simp [copyFile, hl2]
    · exact lookupFile_writeFile_self _ p c2

/-- Witness for C8: two themes named `t.css` from different directories. -/
theorem theme_flat_namespace_collision_witness :
    (isAbsoluteUrl "one/t.css" = false ∧ isAbsoluteUrl "two/t.css" = false
      ∧ pathName ["one", "t.css"] = pathName ["two", "t.css"]
      ∧ lookupFile ⟨[(["one", "t.css"], "A"), (["two", "t.css"], "B")], []⟩
          ["one", "t.css"] = some "A"
      ∧ lookupFile ⟨[(["one", "t.css"], "A"), (["two", "t.css"], "B")], []⟩
          ["two", "t.css"] = some "B"
      ∧ (["two", "t.css"] : List String) ≠ themeOutputPath ["out"] ["one", "t.css"])
    ∧ (themeOutputPath ["out"] ["one", "t.css"] = themeOutputPath ["out"] ["two", "t.css"]
      ∧ (copyTheme ["out"] ["out", "a.html"] "one/t.css" ["one", "t.css"]).1
          = [Effect.copied ["one", "t.css"] (themeOutputPath ["out"] ["one", "t.css"])]
      ∧ (copyTheme ["out"] ["out", "b.html"] "two/t.css" ["two", "t.css"]).1
          = [Effect.copied ["two", "t.css"] (themeOutputPath ["out"] ["one", "t.css"])]
      ∧ ∃ fs1 a1 fs2 a2,
          copyFile ⟨[(["one", "t.css"], "A"), (["two", "t.css"], "B")], []⟩
              ["one", "t.css"] (themeOutputPath ["out"] ["one", "t.css"]) = some (fs1, a1)
          ∧ copyFile fs1 ["two", "t.css"] (themeOutputPath ["out"] ["one", "t.css"])
              = some (fs2, a2)
          ∧ lookupFile fs2 (themeOutputPath ["out"] ["one", "t.css"]) = some "B") :=
  ⟨⟨by decide, by decide, by decide, by decide, by decide, by decide⟩,
    theme_flat_namespace_collision ["out"] ["out", "a.html"] ["out", "b.html"]
      ["one", "t.css"] ["two", "t.css"] "one/t.css" "two/t.css"
      ⟨[(["one", "t.css"], "A"), (["two", "t.css"], "B")], []⟩ "A" "B"
      (by decide) (by decide) (by decide) (by decide) (by decide) (by decide)⟩

theorem copyToOutput_effects_in (root out image : List String)
    (hin : isRelativeTo image root = true) :
    (copyToOutputRelativeToMdRoot root out image).1
      = [Effect.copied image (out ++ image.drop root.length)] := by
  unfold copyToOutputRelativeToMdRoot
  rw [if_pos hin]

theorem copyToOutput_effects_out (root out image : List String)
    (hout : isRelativeTo image root = false) :
    (copyToOutputRelativeToMdRoot root out image).1 = [Effect.warned image] := by
  unfold copyToOutputRelativeToMdRoot
  rw [if_neg (by rw [hout]; exact Bool.false_ne_true)]

theorem copyImages_cons_effects (f : List String → Bool)
    (root out parent : List String) (q : PyRef) (rest : List PyRef)
    (hq : f (resolvePath [] (joinPy parent q)) = true) :
    (copyImages f root out parent (q :: rest)).1
      = (copyToOutputRelativeToMdRoot root out (resolvePath [] (joinPy parent q))).1
        ++ (copyImages f root out parent rest).1 := by
  simp only [copyImages, if_pos hq]

theorem copyImages_ok (f : List String → Bool) (root out parent : List String)
    (refs : List PyRef) :
    (copyImages f root out parent refs).2
      = refs.all fun q => f (resolvePath [] (joinPy parent q)) := by
  induction refs with
  | nil => rfl
  | cons q rest ih =>
    simp only [copyImages, List.all_cons]
    by_cases hc : f (resolvePath [] (joinPy parent q)) = true
    · rw [if_pos hc, hc, Bool.true_and]
      exact ih
    · have hf : f (resolvePath [] (joinPy parent q)) = false := by
        cases hv : f (resolvePath [] (joinPy parent q)) with
        | false => rfl
        | true => exact absurd hv hc
      rw [if_neg hc, hf]
      simp

theorem copyImages_copied_in_root (f : List String → Bool)
    (root out parent : List String) (refs : List PyRef) :
    ∀ src dst, Effect.copied src dst ∈ (copyImages f root out parent refs).1 →
      isRelativeTo src root = true := by
  induction refs with
  | nil =>
    intro src dst h
    simp [copyImages] at h
  | cons q rest ih =>
    intro src dst h
    by_cases hc : f (resolvePath [] (joinPy parent q)) = true
    · rw [copyImages_cons_effects f root out parent q rest hc] at h
      rcases List.mem_append.mp h with h1 | h2
      · by_cases hin : isRelativeTo (resolvePath [] (joinPy parent q)) root = true
        · rw [copyToOutput_effects_in _ _ _ hin] at h1
          simp only [List.mem_singleton, Effect.copied.injEq] at h1
          rw [h1.1]
          exact hin
        · have hf : isRelativeTo (resolvePath [] (joinPy parent q)) root = false := by
            cases hv : isRelativeTo (resolvePath [] (joinPy parent q)) root with
            | false => rfl
            | true => exact absurd hv hin
          rw [copyToOutput_effects_out _ _ _ hf] at h1
          simp at h1
      · exact ih src dst h2
    · have h' : Effect.copied src dst ∈ ([] : List Effect) := by
        simpa only [copyImages, if_neg hc] using h
      simp at h'

theorem copyImages_warned_of_outside (f : List String → Bool)
    (root out parent : List String) (r : PyRef) :
    ∀ refs : List PyRef,
      (∀ q ∈ refs, f (resolvePath [] (joinPy parent q)) = true) →
      r ∈ refs →
      isRelativeTo (resolvePath [] (joinPy parent r)) root = false →
      Effect.warned (resolvePath [] (joinPy parent r))
        ∈ (copyImages f root out parent refs).1 := by
  intro refs
  induction refs with
  | nil =>
    intro _ hr _
    simp at hr
  | cons q rest ih =>
    intro hall hr hout
    have hcq : f (resolvePath [] (joinPy parent q)) = true := hall q (by simp)
    rw [copyImages_cons_effects f root out parent q rest hcq]
    rcases List.mem_cons.mp hr with rfl | hmem
    · apply List.mem_append_left
      rw [copyToOutput_effects_out _ _ _ hout]
      simp
    · exact List.mem_append_right _
        (ih (fun x hx => hall x (by simp [hx])) hmem hout)

theorem copyImages_src_exists (f : List String → Bool)
    (root out parent : List String) :
    ∀ refs : List PyRef, ∀ e ∈ (copyImages f root out parent refs).1,
      (∀ p, e = Effect.warned p → f p = true)
      ∧ (∀ src dst, e = Effect.copied src dst → f src = true) := by
  intro refs
  induction refs with
  | nil =>
    intro e he
    simp [copyImages] at he
  | cons q rest ih =>
    intro e he
    by_cases hc : f (resolvePath [] (joinPy parent q)) = true
    · rw [copyImages_cons_effects f root out parent q rest hc] at he
      rcases List.mem_append.mp he with h1 | h2
      · by_cases hin : isRelativeTo (resolvePath [] (joinPy parent q)) root = true
        · rw [copyToOutput_effects_in _ _ _ hin] at h1
          simp only [List.mem_singleton] at h1
          subst h1
          refine ⟨fun p hp => by simp at hp, fun src dst h => ?_⟩
          simp only [Effect.copied.injEq] at h
          rw [← h.1]
          exact hc
        · have hf : isRelativeTo (resolvePath [] (joinPy parent q)) root = false := by
            cases hv : isRelativeTo (resolvePath [] (joinPy parent q)) root with
            | false => rfl
            | true => exact absurd hv hin
          rw [copyToOutput_effects_out _ _ _ hf] at h1
          simp only [List.mem_singleton] at h1
          subst h1
          refine ⟨fun p hp => ?_, fun src dst h => by simp at h⟩
          simp only [Effect.warned.injEq] at hp
          rw [← hp]
          exact hc
      · exact ih e h2
    · have he' : e ∈ ([] : List Effect) := by
        simpa only [copyImages, if_neg hc] using he
      simp at he'

theorem processMarkdownFile_effects (f : List String → Bool)
    (root out mdFile : List String) (cfgTheme : Option String)
    (themeResolved : List String) (refs : List PyRef) :
    (processMarkdownFile f root out mdFile cfgTheme themeResolved refs).1
      = (themeStep out (outputMarkupPath out (mdFile.drop root.length))
          cfgTheme themeResolved).1
        ++ Effect.created (outputMarkupPath out (mdFile.drop root.length))
          :: (copyImages f root out mdFile.dropLast refs).1 := rfl

theorem processMarkdownFile_ok (f : List String → Bool)
    (root out mdFile : List String) (cfgTheme : Option String)
    (themeResolved : List String) (refs : List PyRef) :
    (processMarkdownFile f root out mdFile cfgTheme themeResolved refs).2
      = (copyImages f root out mdFile.dropLast refs).2 := rfl

/-- C2: for a markdown file whose body references an image at an absolute
path that resolves outside the source root (every referenced image
existing, so strict resolution raises nowhere), processing emits a warning
for that reference, performs no copy with it as source, still writes the
document's output HTML, and completes without error. -/
theorem root_escape_soft_skip
    (fsExists : List String → Bool)
    (mdRootPath outputDirectoryPath mdFile : List String)
    (cfgTheme : Option String) (themeResolved : List String)
    (refs : List PyRef) (r : PyRef)
    (hall : ∀ q ∈ refs, fsExists (resolvePath [] (joinPy mdFile.dropLast q)) = true)
    (hr : r ∈ refs) (habs : r.absolute = true)
    (hout : isRelativeTo (resolvePath [] r.segs) mdRootPath = false) :
    Effect.warned (resolvePath [] r.segs)
        ∈ (processMarkdownFile fsExists mdRootPath outputDirectoryPath mdFile
            cfgTheme themeResolved refs).1
    ∧ (∀ dst, Effect.copied (resolvePath [] r.segs) dst
        ∉ (copyImages fsExists mdRootPath outputDirectoryPath mdFile.dropLast refs).1)
    ∧ Effect.created
          (outputMarkupPath outputDirectoryPath (mdFile.drop mdRootPath.length))
        ∈ (processMarkdownFile fsExists mdRootPath outputDirectoryPath mdFile
            cfgTheme themeResolved refs).1
    ∧ (processMarkdownFile fsExists mdRootPath outputDirectoryPath mdFile
        cfgTheme themeResolved refs).2 = true := by
  have hjoin : joinPy mdFile.dropLast r = r.segs := by
    simp [joinPy, habs]
  refine ⟨?_, ?_, ?_, ?_⟩
  · rw [processMarkdownFile_effects]
    apply List.mem_append_right
    apply List.mem_cons_of_mem
    have h := copyImages_warned_of_outside fsExists mdRootPath outputDirectoryPath
      mdFile.dropLast r refs hall hr (by rw [hjoin]; exact hout)
    rw [hjoin] at h
    exact h
  · intro dst hmem
    have h := copyImages_copied_in_root fsExists mdRootPath outputDirectoryPath
      mdFile.dropLast refs _ dst hmem
    rw [h] at hout
    exact Bool.false_ne_true hout.symm
  · rw [processMarkdownFile_effects]
    exact List.mem_append_right _ (List.mem_cons_self _ _)
  · rw [processMarkdownFile_ok, copyImages_ok]
    exact List.all_eq_true.mpr hall

/-- Witness for C2: `root/a.md` references the existing `img/cat.png`
inside the root and the existing absolute `/etc/x.png` outside it. -/
theorem root_escape_soft_skip_witness :
    ((∀ q ∈ [PyRef.mk false ["img", "cat.png"], PyRef.mk true ["etc", "x.png"]],
        (fun p => decide (p ∈ [["root", "img", "cat.png"], ["etc", "x.png"]]))
          (resolvePath [] (joinPy (["root", "a.md"] : List String).dropLast q)) = true)
      ∧ PyRef.mk true ["etc", "x.png"]
          ∈ [PyRef.mk false ["img", "cat.png"], PyRef.mk true ["etc", "x.png"]]
      ∧ (PyRef.mk true ["etc", "x.png"]).absolute = true
      ∧ isRelativeTo (resolvePath [] ["etc", "x.png"]) ["root"] = false)
    ∧ (Effect.warned (resolvePath [] ["etc", "x.png"])
        ∈ (processMarkdownFile
            (fun p => decide (p ∈ [["root", "img", "cat.png"], ["etc", "x.png"]]))
            ["root"] ["out"] ["root", "a.md"] none []
            [PyRef.mk false ["img", "cat.png"], PyRef.mk true ["etc", "x.png"]]).1
      ∧ (∀ dst, Effect.copied (resolvePath [] ["etc", "x.png"]) dst
          ∉ (copyImages
              (fun p => decide (p ∈ [["root", "img", "cat.png"], ["etc", "x.png"]]))
              ["root"] ["out"] (["root", "a.md"] : List String).dropLast
              [PyRef.mk false ["img", "cat.png"], PyRef.mk true ["etc", "x.png"]]).1)
      ∧ Effect.created (outputMarkupPath ["out"]
            ((["root", "a.md"] : List String).drop (["root"] : List String).length))
          ∈ (processMarkdownFile
              (fun p => decide (p ∈ [["root", "img", "cat.png"], ["etc", "x.png"]]))
              ["root"] ["out"] ["root", "a.md"] none []
              [PyRef.mk false ["img", "cat.png"], PyRef.mk true ["etc", "x.png"]]).1
      ∧ (processMarkdownFile
            (fun p => decide (p ∈ [["root", "img", "cat.png"], ["etc", "x.png"]]))
            ["root"] ["out"] ["root", "a.md"] none []
            [PyRef.mk false ["img", "cat.png"], PyRef.mk true ["etc", "x.png"]]).2 = true) :=
  ⟨⟨by decide, by decide, rfl, by decide⟩,
    root_escape_soft_skip
      (fun p => decide (p ∈ [["root", "img", "cat.png"], ["etc", "x.png"]]))
      ["root"] ["out"] ["root", "a.md"] none []
      [PyRef.mk false ["img", "cat.png"], PyRef.mk true ["etc", "x.png"]]
      (PyRef.mk true ["etc", "x.png"])
      (by decide) (by decide) rfl (by decide)⟩

/-- C9: a reference whose strict resolution fails (the resolved path does
not exist — inside or outside the source root alike) makes the run a hard
failure; the output HTML had already been written before the failure, and
no warning or copy was produced for that reference: the soft
skip-with-warning policy applies only to references that exist but lie
outside the source root. -/
theorem missing_image_hard_failure_after_html
    (fsExists : List String → Bool)
    (mdRootPath outputDirectoryPath mdFile : List String)
    (cfgTheme : Option String) (themeResolved : List String)
    (refs : List PyRef) (r : PyRef) (hr : r ∈ refs)
    (hne : fsExists (resolvePath [] (joinPy mdFile.dropLast r)) = false) :
    (processMarkdownFile fsExists mdRootPath outputDirectoryPath mdFile
        cfgTheme themeResolved refs).2 = false
    ∧ Effect.created
          (outputMarkupPath outputDirectoryPath (mdFile.drop mdRootPath.length))
        ∈ (processMarkdownFile fsExists mdRootPath outputDirectoryPath mdFile
            cfgTheme themeResolved refs).1
    ∧ Effect.warned (resolvePath [] (joinPy mdFile.dropLast r))
        ∉ (copyImages fsExists mdRootPath outputDirectoryPath mdFile.dropLast refs).1
    ∧ ∀ dst, Effect.copied (resolvePath [] (joinPy mdFile.dropLast r)) dst
        ∉ (copyImages fsExists mdRootPath outputDirectoryPath mdFile.dropLast refs).1 := by
  refine ⟨?_, ?_, ?_, ?_⟩
  · rw [processMarkdownFile_ok, copyImages_ok]
    cases hok : (refs.all fun q =>
        fsExists (resolvePath [] (joinPy mdFile.dropLast q))) with
    | false => rfl
    | true =>
      have h2 := List.all_eq_true.mp hok r hr
      rw [hne] at h2
      exact h2.symm
  · rw [processMarkdownFile_effects]
    exact List.mem_append_right _ (List.mem_cons_self _ _)
  · intro hmem
    have h2 := (copyImages_src_exists fsExists mdRootPath outputDirectoryPath
      mdFile.dropLast refs _ hmem).1 _ rfl
    rw [hne] at h2
    exact Bool.false_ne_true h2
  · intro dst hmem
    have h2 := (copyImages_src_exists fsExists mdRootPath outputDirectoryPath
      mdFile.dropLast refs _ hmem).2 _ dst rfl
    rw [hne] at h2
    exact Bool.false_ne_true h2

/-- Witness for C9: `root/a.md` references `missing.png`, which does not
exist anywhere on the (empty) filesystem. -/
theorem missing_image_hard_failure_after_html_witness :
    (PyRef.mk false ["missing.png"] ∈ [PyRef.mk false ["missing.png"]]
      ∧ (fun _ => false)
          (resolvePath []
            (joinPy (["root", "a.md"] : List String).dropLast
              (PyRef.mk false ["missing.png"]))) = false)
    ∧ ((processMarkdownFile (fun _ => false) ["root"] ["out"] ["root", "a.md"]
          none [] [PyRef.mk false ["missing.png"]]).2 = false
      ∧ Effect.created (outputMarkupPath ["out"]
            ((["root", "a.md"] : List String).drop (["root"] : List String).length))
          ∈ (processMarkdownFile (fun _ => false) ["root"] ["out"] ["root", "a.md"]
              none [] [PyRef.mk false ["missing.png"]]).1
      ∧ Effect.warned (resolvePath []
            (joinPy (["root", "a.md"] : List String).dropLast
              (PyRef.mk false ["missing.png"])))
          ∉ (copyImages (fun _ => false) ["root"] ["out"]
              (["root", "a.md"] : List String).dropLast
              [PyRef.mk false ["missing.png"]]).1
      ∧ ∀ dst, Effect.copied (resolvePath []
            (joinPy (["root", "a.md"] : List String).dropLast
              (PyRef.mk false ["missing.png"]))) dst
          ∉ (copyImages (fun _ => false) ["root"] ["out"]
              (["root", "a.md"] : List String).dropLast
              [PyRef.mk false ["missing.png"]]).1) :=
  ⟨⟨by decide, rfl⟩,
    missing_image_hard_failure_after_html (fun _ => false) ["root"] ["out"]
      ["root", "a.md"] none [] [PyRef.mk false ["missing.png"]]
      (PyRef.mk false ["missing.png"]) (by decide) rfl⟩

